import Mathlib

/-!
Shallow embedding of the browser voice-chat client
(src/hooks/useGeminiLive.ts, src/unnamed/part_000 .. part_003, src/App.tsx).

The client keeps a session status, a transcript (a list of utterances), and a
playback queue (a set of scheduled audio sources plus a `nextStartTime` on the
output audio clock).  Server messages carry optional input/output transcription
fragments, an optional audio chunk, a turn-complete flag and an interrupted
flag; `onmessage` folds them into the state in the order the source handles
them.  Times on the audio clock are modelled as rationals.
-/

namespace VoiceChat

/-- The `Speaker` enum from src/unnamed/part_000 (types.ts). -/
inductive Speaker where
  | User
  | AI
deriving DecidableEq, Repr

/-- The `TranscriptEntry` record from src/unnamed/part_000: one utterance of one speaker,
open (`isFinal = false`) until a turn-complete closes it. -/
structure TranscriptEntry where
  speaker : Speaker
  text : String
  isFinal : Bool
deriving DecidableEq, Repr

/-- The `SessionStatus` enum from src/unnamed/part_000. -/
inductive SessionStatus where
  | Idle
  | Connecting
  | Listening
  | Error
deriving DecidableEq, Repr

/-- One scheduled `AudioBufferSourceNode`: its `start(...)` time on the output
clock and its buffer's duration. -/
structure ScheduledSource where
  startTime : ℚ
  duration : ℚ
deriving DecidableEq, Repr

/-- The hook state relevant to the claims: React `status` and `transcript`
state plus the `nextStartTime` ref and the `outputSources` set
(src/hooks/useGeminiLive.ts lines 12-24 / 185-198). -/
structure ClientState where
  status : SessionStatus
  transcript : List TranscriptEntry
  nextStartTime : ℚ
  outputSources : List ScheduledSource
deriving DecidableEq, Repr

/-- Fields of a `LiveServerMessage`'s `serverContent` as consumed by `onmessage`:
optional input/output transcription text, optional model-turn audio bytes
(the base64 payload already decoded to bytes), and the `turnComplete` and
`interrupted` flags. -/
structure ServerMessage where
  inputTranscription : Option String
  outputTranscription : Option String
  audioData : Option (List ℕ)
  turnComplete : Bool
  interrupted : Bool
deriving Repr

/-- Transcript update for one transcription fragment
(src/hooks/useGeminiLive.ts lines 282-305).  The source has two identical
inline branches, one with `Speaker.User` for `inputTranscription` and one with
`Speaker.AI` for `outputTranscription`; this embeds both, parametrised by the
speaker.  The code looks at `prev[prev.length - 1]` only: it extends that
last entry when it belongs to the same speaker and is not final, and
otherwise pushes a fresh open entry. -/
def appendFragment (s : Speaker) (txt : String) (t : List TranscriptEntry) :
    List TranscriptEntry :=
  match t.getLast? with
  | some last =>
      if last.speaker = s ∧ last.isFinal = false then
        t.dropLast ++ [{ last with text := last.text ++ txt }]
      else
        t ++ [{ speaker := s, text := txt, isFinal := false }]
  | none => t ++ [{ speaker := s, text := txt, isFinal := false }]

/-- The `turnComplete` transcript update (src/hooks/useGeminiLive.ts lines
324-330): map every entry to a final one, leaving already-final entries as
they are. -/
def closeTranscript (t : List TranscriptEntry) : List TranscriptEntry :=
  t.map fun e => if e.isFinal then e else { e with isFinal := true }

/-- Duration of one decoded chunk: `decodeAudioData` (src/unnamed/part_001 lines 24-41) builds a mono buffer
with `frameCount = bytes.length / 2` frames at 24000 Hz, so the resulting
`audioBuffer.duration` is `frameCount / 24000` seconds. -/
def audioChunkDuration (bytes : List ℕ) : ℚ :=
  ((bytes.length / 2 : ℕ) : ℚ) / 24000

/-- Audio scheduling block of `onmessage` (src/hooks/useGeminiLive.ts lines
308-322): clamp `nextStartTime` up to the clock's `currentTime`, start the
source there, then advance `nextStartTime` by the buffer's duration and add
the source to the output set. -/
def scheduleAudioChunk (st : ClientState) (currentTime duration : ℚ) :
    ClientState :=
  let start := max st.nextStartTime currentTime
  { st with
    nextStartTime := start + duration
    outputSources := st.outputSources ++ [⟨start, duration⟩] }

/-- Flush: `clearAudioPlayback` (src/unnamed/part_001 lines 116-124) and the
`interrupted` block of `onmessage` (src/hooks/useGeminiLive.ts lines
332-338): stop every source in the output set, empty the set, and reset
`nextStartTime` to 0. -/
def clearAudioPlayback (st : ClientState) : ClientState :=
  { st with outputSources := [], nextStartTime := 0 }

/-- Block of `onmessage` for `serverContent.inputTranscription`. -/
def handleInputTranscription (o : Option String) (st : ClientState) :
    ClientState :=
  match o with
  | some txt => { st with transcript := appendFragment Speaker.User txt st.transcript }
  | none => st

/-- Block of `onmessage` for `serverContent.outputTranscription`. -/
def handleOutputTranscription (o : Option String) (st : ClientState) :
    ClientState :=
  match o with
  | some txt => { st with transcript := appendFragment Speaker.AI txt st.transcript }
  | none => st

/-- Block of `onmessage` for `serverContent.modelTurn` audio. -/
def handleAudioChunk (o : Option (List ℕ)) (currentTime : ℚ)
    (st : ClientState) : ClientState :=
  match o with
  | some bytes => scheduleAudioChunk st currentTime (audioChunkDuration bytes)
  | none => st

/-- Block of `onmessage` for `serverContent.turnComplete`. -/
def handleTurnComplete (b : Bool) (st : ClientState) : ClientState :=
  if b then { st with transcript := closeTranscript st.transcript } else st

/-- Block of `onmessage` for `serverContent.interrupted`. -/
def handleInterrupted (b : Bool) (st : ClientState) : ClientState :=
  if b then clearAudioPlayback st else st

/-- The whole `onmessage` callback (src/hooks/useGeminiLive.ts lines 278-340),
applying its five blocks in source order: input transcription, output
transcription, audio scheduling, turn-complete, interrupted.  `currentTime`
is the output clock's `currentTime` when the message is handled. -/
def onmessage (msg : ServerMessage) (currentTime : ℚ) (st : ClientState) :
    ClientState :=
  handleInterrupted msg.interrupted
    (handleTurnComplete msg.turnComplete
      (handleAudioChunk msg.audioData currentTime
        (handleOutputTranscription msg.outputTranscription
          (handleInputTranscription msg.inputTranscription st))))

/-- The `isSpeaking` poll (src/hooks/useGeminiLive.ts lines 28-42): when the
status is `Listening` and the output audio context exists (`some now`, `now`
being its `currentTime`), the AI is speaking iff `nextStartTime` lies strictly
in the future; in every other case the poll forces `isSpeaking` to false. -/
def pollIsSpeaking (status : SessionStatus) (outputClock : Option ℚ)
    (nextStart : ℚ) : Bool :=
  match outputClock with
  | some now =>
      if status = SessionStatus.Listening then decide (now < nextStart)
      else false
  | none => false

/-- Teardown: `stopSession` (src/hooks/useGeminiLive.ts lines 45-74): after closing the
session and tearing down the audio graph it stops and clears every output
source, resets `nextStartTime` to 0 and unconditionally ends with
`setStatus(Idle)`. -/
def stopSession (st : ClientState) : ClientState :=
  { st with
    status := SessionStatus.Idle
    outputSources := []
    nextStartTime := 0 }

/-- The sequence of `setStatus` calls a `startSession` run makes
(src/hooks/useGeminiLive.ts lines 76-172): `Connecting` first; then `Error`
from the catch block when startup fails, or `Listening` from the `onopen`
callback when the remote session opens (with the audio refs in place). -/
def startSessionTrace (startupOk opens : Bool) : List SessionStatus :=
  SessionStatus.Connecting ::
    (if startupOk then
      (if opens then [SessionStatus.Listening] else [])
    else [SessionStatus.Error])

/-- App-level state from src/unnamed/part_003: the hook status, the
`isSessionActive` and `apiKeyReady` flags, the `autoStartedRef` ref, and a
count of `startSession` invocations. -/
structure AppState where
  status : SessionStatus
  isSessionActive : Bool
  apiKeyReady : Bool
  autoStarted : Bool
  connectCalls : ℕ
deriving DecidableEq, Repr

/-- Guard of the auto-start effect (src/unnamed/part_003 lines 134-140). -/
def shouldAutoStart (s : AppState) : Bool :=
  s.apiKeyReady && !s.isSessionActive &&
    (s.status == SessionStatus.Idle) && !s.autoStarted

/-- Body of the auto-start effect (src/unnamed/part_003 lines 134-140): when
the guard holds it sets `autoStartedRef.current = true`, calls `startSession`
(counted in `connectCalls`; `startSession` first sets status `Connecting`)
and sets `isSessionActive`.  `autoStartedRef.current` is assigned nowhere
else in src/unnamed/part_003, so it is never reset to `false`. -/
def runAutoStartEffect (s : AppState) : AppState :=
  if shouldAutoStart s then
    { s with autoStarted := true, isSessionActive := true,
             connectCalls := s.connectCalls + 1,
             status := SessionStatus.Connecting }
  else s

/-- Effect on the App state of the remote session closing or erroring: the
hook's `onclose` calls `stopSession`, which ends with status `Idle`
(src/hooks/useGeminiLive.ts lines 162-164; `onerror` at 156-161 also ends in
`stopSession`), and the status-watching App effect at src/unnamed/part_003
lines 176-183 then sets `isSessionActive` to `false`. -/
def applyOnClose (s : AppState) : AppState :=
  { s with status := SessionStatus.Idle, isSessionActive := false }

/-- A list of scheduled sources is non-overlapping when each source ends no
later than the next one starts. -/
def noOverlap : List ScheduledSource → Prop
  | [] => True
  | [_] => True
  | a :: b :: rest => a.startTime + a.duration ≤ b.startTime ∧ noOverlap (b :: rest)

/-- Queue invariant: recorded sources are scheduled back-to-back or later,
and `nextStartTime` is at or past the scheduled end of every recorded
source. -/
def queueInv (st : ClientState) : Prop :=
  noOverlap st.outputSources ∧
  ∀ s ∈ st.outputSources, s.startTime + s.duration ≤ st.nextStartTime

theorem noOverlap_append (l : List ScheduledSource) (x : ScheduledSource)
    (h1 : noOverlap l)
    (h2 : ∀ s ∈ l, s.startTime + s.duration ≤ x.startTime) :
    noOverlap (l ++ [x]) := by
  induction l with
  | nil => exact trivial
  | cons a t ih =>
    cases t with
    | nil => exact ⟨h2 a (by simp), trivial⟩
    | cons b t2 =>
      obtain ⟨hab, ht⟩ := h1
      exact ⟨hab, ih ht (fun s hs => h2 s (List.mem_cons_of_mem a hs))⟩

theorem appendFragment_preserves (s : Speaker) (txt : String)
    (t : List TranscriptEntry) (i : ℕ) (e : TranscriptEntry)
    (hi : t[i]? = some e) (he : e.isFinal = true ∨ e.speaker ≠ s) :
    (appendFragment s txt t)[i]? = some e := by
  have hlen : i < t.length := by
    by_contra hc
    rw [List.getElem?_eq_none (Nat.le_of_not_lt hc)] at hi
    exact Option.noConfusion hi
  unfold appendFragment
  split
  next last hL =>
    split
    next hcnd =>
      rcases Nat.lt_or_ge i (t.length - 1) with hlt | hge
      · rw [List.getElem?_append,
          if_pos (show i < t.dropLast.length by
            simpa [List.length_dropLast] using hlt),
          List.dropLast_eq_take, List.getElem?_take, if_pos hlt]
        exact hi
      · have hieq : i = t.length - 1 := by omega
        subst hieq
        rw [List.getLast?_eq_getElem?, hi] at hL
        have hle : e = last := by injection hL
        subst hle
        rcases he with h1 | h1
        · rw [hcnd.2] at h1; exact Bool.noConfusion h1
        · exact absurd hcnd.1 h1
    next hcnd =>
      rw [List.getElem?_append, if_pos hlen]
      exact hi
  next hL =>
    rw [List.getElem?_append, if_pos hlen]
    exact hi

theorem closeTranscript_preserves_final (t : List TranscriptEntry) (i : ℕ)
    (e : TranscriptEntry) (hi : t[i]? = some e) (hf : e.isFinal = true) :
    (closeTranscript t)[i]? = some e := by
  rw [closeTranscript, List.getElem?_map, hi]
  simp [hf]

/-- C1: an incoming audio chunk is scheduled to start at
`max (scheduled end of the queue) (output clock's current time)`, and the
scheduled end time then advances by exactly the chunk's duration; hence a
chunk arriving before the queue drains starts exactly at the previous
scheduled end, and the queued sources never overlap.  The last conjunct ties
this to `onmessage` for an audio-only message, with the chunk's duration
(nonnegative by the next-to-last conjunct) coming from `decodeAudioData`. -/
theorem playback_schedule (st : ClientState) (ct d : ℚ)
    (hd : 0 ≤ d) (hinv : queueInv st) :
    (scheduleAudioChunk st ct d).outputSources
        = st.outputSources ++ [⟨max st.nextStartTime ct, d⟩] ∧
    (scheduleAudioChunk st ct d).nextStartTime = max st.nextStartTime ct + d ∧
    (ct ≤ st.nextStartTime →
        (scheduleAudioChunk st ct d).outputSources.getLast?
          = some ⟨st.nextStartTime, d⟩) ∧
    queueInv (scheduleAudioChunk st ct d) ∧
    (∀ bytes : List ℕ, 0 ≤ audioChunkDuration bytes) ∧
    (∀ bytes : List ℕ,
        onmessage ⟨none, none, some bytes, false, false⟩ ct st
          = scheduleAudioChunk st ct (audioChunkDuration bytes)) := by
  refine ⟨rfl, rfl, ?_, ⟨?_, ?_⟩, ?_, fun bytes => rfl⟩
  · intro hct
    simp [scheduleAudioChunk, max_eq_left hct]
  · apply noOverlap_append _ _ hinv.1
    intro s hs
    exact le_trans (hinv.2 s hs) (le_max_left _ _)
  · intro s hs
    simp only [scheduleAudioChunk, List.mem_append, List.mem_singleton] at hs
    rcases hs with hs | hs
    · have h1 := hinv.2 s hs
      have h2 : st.nextStartTime ≤ max st.nextStartTime ct := le_max_left _ _
      show s.startTime + s.duration ≤ max st.nextStartTime ct + d
      linarith
    · subst hs
      show max st.nextStartTime ct + d ≤ max st.nextStartTime ct + d
      exact le_refl _
  · intro bytes
    unfold audioChunkDuration
    positivity

/-- Witness for C1 at a concrete empty queue. -/
theorem playback_schedule_witness :
    (scheduleAudioChunk ⟨SessionStatus.Listening, [], 0, []⟩ 2 1).nextStartTime
        = max 0 2 + 1 ∧
    queueInv (scheduleAudioChunk ⟨SessionStatus.Listening, [], 0, []⟩ 2 1) :=
  ⟨(playback_schedule ⟨SessionStatus.Listening, [], 0, []⟩ 2 1 (by norm_num)
      ⟨trivial, by simp⟩).2.1,
   (playback_schedule ⟨SessionStatus.Listening, [], 0, []⟩ 2 1 (by norm_num)
      ⟨trivial, by simp⟩).2.2.2.1⟩

/-- C2 counterexample: in the transcript
`[open User "a", open AI "b"]` an open (non-final) utterance of the User
exists (index 0), yet an incoming User fragment "c" is appended as a brand
new entry while the existing open User utterance stays `"a"` unchanged — the
assembler does not append to "the last open utterance of speaker S if one
exists"; it only extends the transcript's very last entry. -/
theorem appendFragment_skips_earlier_open_entry :
    appendFragment Speaker.User "c"
        [⟨Speaker.User, "a", false⟩, ⟨Speaker.AI, "b", false⟩]
      = [⟨Speaker.User, "a", false⟩, ⟨Speaker.AI, "b", false⟩,
         ⟨Speaker.User, "c", false⟩] := by
  decide

/-- C2 (amended): a partial fragment for speaker S extends the transcript's
last entry when that entry belongs to S and is still open (only its text
changes, by appending; every earlier entry is untouched); in every other
case (empty transcript, last entry of the other speaker, or last entry
final) a new open utterance for S is appended; entries of the other speaker
are never modified.  The last conjunct ties the parametrised update to the
two `onmessage` transcription blocks. -/
theorem transcript_append_fragment (s : Speaker) (txt : String)
    (t : List TranscriptEntry) :
    (∀ last, t.getLast? = some last → last.speaker = s →
        last.isFinal = false →
        (appendFragment s txt t).length = t.length ∧
        (appendFragment s txt t).getLast? = some ⟨s, last.text ++ txt, false⟩ ∧
        ∀ i, i + 1 < t.length → (appendFragment s txt t)[i]? = t[i]?) ∧
    ((∀ last, t.getLast? = some last →
          last.speaker ≠ s ∨ last.isFinal = true) →
        appendFragment s txt t = t ++ [⟨s, txt, false⟩]) ∧
    (∀ (i : ℕ) (e : TranscriptEntry), t[i]? = some e → e.speaker ≠ s →
        (appendFragment s txt t)[i]? = some e) ∧
    (∀ o st, handleInputTranscription (some o) st
          = { st with transcript := appendFragment Speaker.User o st.transcript } ∧
        handleOutputTranscription (some o) st
          = { st with transcript := appendFragment Speaker.AI o st.transcript }) := by
  refine ⟨?_, ?_, ?_, fun o st => ⟨rfl, rfl⟩⟩
  · intro last hL hs hf
    have hne : t ≠ [] := by
      intro h
      subst h
      exact Option.noConfusion hL
    have hlen : 1 ≤ t.length := List.length_pos.mpr hne
    have heq : appendFragment s txt t
        = t.dropLast ++ [{ last with text := last.text ++ txt }] := by
      unfold appendFragment
      rw [hL]
      simp only [hs, hf, and_self, if_true]
    refine ⟨?_, ?_, ?_⟩
    · rw [heq]
      simp only [List.length_append, List.length_dropLast, List.length_singleton]
      omega
    · rw [heq]
      obtain ⟨ls, lt, lf⟩ := last
      simp only at hs hf
      subst hs
      subst hf
      simp
    · intro i hilt
      rw [heq, List.getElem?_append,
        if_pos (show i < t.dropLast.length by
          simp only [List.length_dropLast]; omega),
        List.dropLast_eq_take, List.getElem?_take, if_pos (by omega)]
  · intro hcond
    unfold appendFragment
    cases hL : t.getLast? with
    | none => rfl
    | some last =>
      simp only
      rw [if_neg]
      rcases hcond last hL with h1 | h1
      · exact fun hc => h1 hc.1
      · exact fun hc => by rw [h1] at hc; exact Bool.noConfusion hc.2
  · intro i e hi hsp
    exact appendFragment_preserves s txt t i e hi (Or.inr hsp)

/-- Witness for C2's amended theorem at a concrete one-entry transcript. -/
theorem transcript_append_fragment_witness :
    (appendFragment Speaker.AI "!" [⟨Speaker.AI, "hi", false⟩]).getLast?
      = some ⟨Speaker.AI, "hi" ++ "!", false⟩ :=
  ((transcript_append_fragment Speaker.AI "!" [⟨Speaker.AI, "hi", false⟩]).1
    ⟨Speaker.AI, "hi", false⟩ rfl rfl rfl).2.1

/-- C3: a server message with `interrupted` set leaves the playback queue
empty (every queued or playing source is stopped via `source.stop()` and
removed from the output-source set) and resets the scheduled next-start time
to 0; the flush itself (`clearAudioPlayback` / the `interrupted` block)
changes neither the transcript nor the session status, and a message that
carries only the interruption flag leaves them both unchanged. -/
theorem interruption_flush (msg : ServerMessage) (ct : ℚ) (st : ClientState)
    (h : msg.interrupted = true) :
    (onmessage msg ct st).outputSources = [] ∧
    (onmessage msg ct st).nextStartTime = 0 ∧
    (∀ s : ClientState,
        (clearAudioPlayback s).transcript = s.transcript ∧
        (clearAudioPlayback s).status = s.status ∧
        (clearAudioPlayback s).outputSources = [] ∧
        (clearAudioPlayback s).nextStartTime = 0) ∧
    onmessage ⟨none, none, none, false, true⟩ ct st
      = clearAudioPlayback st := by
  refine ⟨?_, ?_, fun s => ⟨rfl, rfl, rfl, rfl⟩, rfl⟩
  · unfold onmessage handleInterrupted
    rw [h]
    simp [clearAudioPlayback]
  · unfold onmessage handleInterrupted
    rw [h]
    simp [clearAudioPlayback]

/-- Witness for C3 at a concrete state with a queued source. -/
theorem interruption_flush_witness :
    (onmessage ⟨none, none, none, false, true⟩ 0
        ⟨SessionStatus.Listening, [], 5, [⟨0, 5⟩]⟩).outputSources = [] ∧
    (onmessage ⟨none, none, none, false, true⟩ 0
        ⟨SessionStatus.Listening, [], 5, [⟨0, 5⟩]⟩).nextStartTime = 0 :=
  ⟨(interruption_flush ⟨none, none, none, false, true⟩ 0
      ⟨SessionStatus.Listening, [], 5, [⟨0, 5⟩]⟩ rfl).1,
   (interruption_flush ⟨none, none, none, false, true⟩ 0
      ⟨SessionStatus.Listening, [], 5, [⟨0, 5⟩]⟩ rfl).2.1⟩

/-- C4: with the output clock available at time `now`, the poll reports
`isSpeaking = true` exactly when the status is `Listening` and the scheduled
next-start time lies strictly in the future; whenever the status is not
`Listening` the poll reports `false` (whatever the clock). -/
theorem isSpeaking_poll_spec (status : SessionStatus) (now nextStart : ℚ) :
    (pollIsSpeaking status (some now) nextStart = true ↔
      status = SessionStatus.Listening ∧ now < nextStart) ∧
    (∀ outputClock, status ≠ SessionStatus.Listening →
      pollIsSpeaking status outputClock nextStart = false) := by
  constructor
  · unfold pollIsSpeaking
    by_cases h : status = SessionStatus.Listening <;> simp [h]
  · intro clock h
    unfold pollIsSpeaking
    cases clock with
    | none => rfl
    | some now2 => simp [h]

/-- Witness for C4: an `Idle` client is never reported as speaking. -/
theorem isSpeaking_poll_spec_witness :
    pollIsSpeaking SessionStatus.Idle (some 0) 1 = false :=
  (isSpeaking_poll_spec SessionStatus.Idle 0 1).2 (some 0) (by decide)

/-- C5: the `turnComplete` update keeps the number and order of utterances,
keeps every entry's speaker and text, sets `isFinal = true` on every entry,
and leaves already-final entries exactly as they were; the last conjunct
ties it to the `onmessage` turn-complete block. -/
theorem turn_complete_closes_all (t : List TranscriptEntry) :
    (closeTranscript t).length = t.length ∧
    (∀ (i : ℕ) (e : TranscriptEntry), t[i]? = some e →
        (closeTranscript t)[i]?
            = some { speaker := e.speaker, text := e.text, isFinal := true } ∧
        (e.isFinal = true → (closeTranscript t)[i]? = some e)) ∧
    (∀ st : ClientState,
        (handleTurnComplete true st).transcript
            = closeTranscript st.transcript ∧
        (handleTurnComplete false st).transcript = st.transcript) := by
  refine ⟨by simp [closeTranscript], ?_, fun st => ⟨rfl, rfl⟩⟩
  intro i e hi
  obtain ⟨sp, tx, fin⟩ := e
  constructor
  · rw [closeTranscript, List.getElem?_map, hi]
    cases fin <;> simp
  · intro hf
    exact closeTranscript_preserves_final t i _ hi hf

/-- Witness for C5 at a concrete two-entry transcript. -/
theorem turn_complete_closes_all_witness :
    (closeTranscript [⟨Speaker.User, "a", false⟩, ⟨Speaker.AI, "b", true⟩])[0]?
        = some ⟨Speaker.User, "a", true⟩ ∧
    (closeTranscript [⟨Speaker.User, "a", false⟩, ⟨Speaker.AI, "b", true⟩])[1]?
        = some ⟨Speaker.AI, "b", true⟩ :=
  ⟨((turn_complete_closes_all _).2.1 0 ⟨Speaker.User, "a", false⟩ rfl).1,
   ((turn_complete_closes_all _).2.1 1 ⟨Speaker.AI, "b", true⟩ rfl).2 rfl⟩

/-- C6: the session status ranges over exactly the four enum values; a
`startSession` run first sets `Connecting` and ends in `Listening` when the
remote session opens, or in `Error` when startup fails; `stopSession` always
ends with status `Idle`. -/
theorem session_lifecycle (st : ClientState) :
    (∀ s : SessionStatus,
        s = SessionStatus.Idle ∨ s = SessionStatus.Connecting ∨
        s = SessionStatus.Listening ∨ s = SessionStatus.Error) ∧
    (∀ startupOk opens : Bool,
        (startSessionTrace startupOk opens).head?
          = some SessionStatus.Connecting) ∧
    (∀ opens : Bool,
        (startSessionTrace false opens).getLast? = some SessionStatus.Error) ∧
    (startSessionTrace true true).getLast? = some SessionStatus.Listening ∧
    (stopSession st).status = SessionStatus.Idle := by
  refine ⟨?_, fun a b => rfl, fun b => rfl, rfl, rfl⟩
  intro s
  cases s
  · exact Or.inl rfl
  · exact Or.inr (Or.inl rfl)
  · exact Or.inr (Or.inr (Or.inl rfl))
  · exact Or.inr (Or.inr (Or.inr rfl))

/-- C7 counterexample: start from the App state of an active conversation
after the one-shot auto-start has fired (`status = Listening`,
`isSessionActive`, `apiKeyReady`, `autoStartedRef.current = true`, one
`startSession` call so far).  When the remote session closes, the client
ends at status `Idle` and the number of `startSession` calls stays 1: no
reconnection is made. -/
theorem no_reconnect_counterexample :
    (runAutoStartEffect (applyOnClose
        ⟨SessionStatus.Listening, true, true, true, 1⟩)).connectCalls = 1 ∧
    (runAutoStartEffect (applyOnClose
        ⟨SessionStatus.Listening, true, true, true, 1⟩)).status
      = SessionStatus.Idle := by
  decide

/-- C7 (amended): the client has no reconnection logic.  When the streaming
session closes or errors, the hook tears down to `Idle`; once the one-shot
auto-start effect has fired (`autoStartedRef.current = true`, never reset),
the effect never calls `startSession` again, so the session is re-established
only by an explicit user toggle. -/
theorem no_automatic_reconnect (s : AppState) (h : s.autoStarted = true) :
    runAutoStartEffect (applyOnClose s) = applyOnClose s ∧
    (applyOnClose s).status = SessionStatus.Idle ∧
    (runAutoStartEffect (applyOnClose s)).connectCalls = s.connectCalls ∧
    runAutoStartEffect s = s := by
  have h1 : shouldAutoStart (applyOnClose s) = false := by
    simp [shouldAutoStart, applyOnClose, h]
  have h2 : shouldAutoStart s = false := by
    simp [shouldAutoStart, h]
  refine ⟨?_, rfl, ?_, ?_⟩
  · rw [runAutoStartEffect, h1]
    simp
  · rw [runAutoStartEffect, h1]
    simp [applyOnClose]
  · rw [runAutoStartEffect, h2]
    simp

/-- Witness for C7's amended theorem at a concrete post-auto-start state. -/
theorem no_automatic_reconnect_witness :
    runAutoStartEffect (applyOnClose
        ⟨SessionStatus.Error, false, true, true, 3⟩)
      = applyOnClose ⟨SessionStatus.Error, false, true, true, 3⟩ :=
  (no_automatic_reconnect ⟨SessionStatus.Error, false, true, true, 3⟩ rfl).1

/-- C10 counterexample: with the two open entries
`[open User "a", open AI "b"]`, a turn-complete message appends nothing (the
length stays 2) yet modifies entry 0, which is not the last entry — so it is
not the case that every transcript update "either appends a new entry or
modifies only the last, non-final entry". -/
theorem turn_complete_modifies_non_last :
    (closeTranscript
        [⟨Speaker.User, "a", false⟩, ⟨Speaker.AI, "b", false⟩]).length = 2 ∧
    (closeTranscript
        [⟨Speaker.User, "a", false⟩, ⟨Speaker.AI, "b", false⟩])[0]?
      ≠ [(⟨Speaker.User, "a", false⟩ : TranscriptEntry),
         ⟨Speaker.AI, "b", false⟩][0]? := by
  decide

/-- C10 (amended): once a transcript entry is final, no subsequent message
(input transcription, output transcription, turn-complete or interruption)
changes its speaker, text or `isFinal` flag: every transcript update appends
new entries or modifies only non-final entries, so the entry survives any
`onmessage` at the same position, verbatim. -/
theorem final_entries_immutable (msg : ServerMessage) (ct : ℚ)
    (st : ClientState) (i : ℕ) (e : TranscriptEntry)
    (hi : st.transcript[i]? = some e) (hf : e.isFinal = true) :
    (onmessage msg ct st).transcript[i]? = some e := by
  unfold onmessage
  have h1 : (handleInputTranscription msg.inputTranscription st).transcript[i]?
      = some e := by
    cases ho : msg.inputTranscription with
    | none => exact hi
    | some txt =>
      exact appendFragment_preserves Speaker.User txt st.transcript i e hi
        (Or.inl hf)
  set st1 := handleInputTranscription msg.inputTranscription st with hst1
  have h2 : (handleOutputTranscription msg.outputTranscription st1).transcript[i]?
      = some e := by
    cases ho : msg.outputTranscription with
    | none => exact h1
    | some txt =>
      exact appendFragment_preserves Speaker.AI txt st1.transcript i e h1
        (Or.inl hf)
  set st2 := handleOutputTranscription msg.outputTranscription st1 with hst2
  have h3 : (handleAudioChunk msg.audioData ct st2).transcript[i]? = some e := by
    cases ho : msg.audioData with
    | none => exact h2
    | some bytes => exact h2
  set st3 := handleAudioChunk msg.audioData ct st2 with hst3
  have h4 : (handleTurnComplete msg.turnComplete st3).transcript[i]?
      = some e := by
    cases hb : msg.turnComplete
    · exact h3
    · exact closeTranscript_preserves_final st3.transcript i e h3 hf
  cases hb : msg.interrupted
  · exact h4
  · exact h4

/-- The base64 alphabet of the browser's `btoa`/`atob` (RFC 4648), the
external encoding the helpers in src/unnamed/part_001 and part_002 rely
on. -/
def base64Alphabet : List Char :=
  "ABCDEFGHIJKLMNOPQRSTUVWXYZabcdefghijklmnopqrstuvwxyz0123456789+/".toList

/-- Character for one 6-bit group. -/
def b64Char (n : ℕ) : Char := base64Alphabet.getD n 'A'

/-- Index of a character in the alphabet: how `atob` maps a base64 character
back to its 6-bit group. -/
def b64Index (c : Char) : ℕ := base64Alphabet.indexOf c

/-- Model of the browser's `btoa` on a binary string given by its char codes
(each a byte): standard base64, three bytes to four characters, `=`-padded.
`encode` (src/unnamed/part_001 lines 43-50) builds exactly such a binary
string with `String.fromCharCode` and passes it to `btoa`. -/
def btoaBytes : List ℕ → List Char
  | b1 :: b2 :: b3 :: rest =>
      b64Char (b1 / 4) :: b64Char (b1 % 4 * 16 + b2 / 16) ::
        b64Char (b2 % 16 * 4 + b3 / 64) :: b64Char (b3 % 64) :: btoaBytes rest
  | [b1, b2] =>
      [b64Char (b1 / 4), b64Char (b1 % 4 * 16 + b2 / 16),
       b64Char (b2 % 16 * 4), '=']
  | [b1] => [b64Char (b1 / 4), b64Char (b1 % 4 * 16), '=', '=']
  | [] => []

/-- Model of the browser's `atob` composed with the per-character
`charCodeAt` loop of `decode` (src/unnamed/part_001 lines 14-22): four
characters back to up to three bytes, `=` padding cutting the final group
short. -/
def atobChars : List Char → List ℕ
  | c1 :: c2 :: c3 :: c4 :: rest =>
      if c3 = '=' then [b64Index c1 * 4 + b64Index c2 / 16]
      else if c4 = '=' then
        [b64Index c1 * 4 + b64Index c2 / 16,
         b64Index c2 % 16 * 16 + b64Index c3 / 4]
      else
        (b64Index c1 * 4 + b64Index c2 / 16) ::
          ((b64Index c2 % 16 * 16 + b64Index c3 / 4) ::
            ((b64Index c3 % 4 * 64 + b64Index c4) :: atobChars rest))
  | _ => []

/-- The `encode` helper (src/unnamed/part_001 lines 43-50, identical copy in
src/unnamed/part_002 lines 52-59): build the binary string whose char codes
are the bytes and apply `btoa`. -/
def encode (bytes : List ℕ) : List Char := btoaBytes bytes

/-- The `decode` helper (src/unnamed/part_001 lines 14-22, identical copy in
src/unnamed/part_002 lines 23-31): apply `atob` and read each character's
code back as a byte. -/
def decode (base64 : List Char) : List ℕ := atobChars base64

theorem b64_roundtrip : ∀ n < 64, b64Index (b64Char n) = n ∧ b64Char n ≠ '=' := by
  decide

theorem atobChars_full (c1 c2 c3 c4 : Char) (rest : List Char)
    (h3 : c3 ≠ '=') (h4 : c4 ≠ '=') :
    atobChars (c1 :: c2 :: c3 :: c4 :: rest)
      = (b64Index c1 * 4 + b64Index c2 / 16) ::
        ((b64Index c2 % 16 * 16 + b64Index c3 / 4) ::
          ((b64Index c3 % 4 * 64 + b64Index c4) :: atobChars rest)) := by
  simp only [atobChars]
  rw [if_neg h3, if_neg h4]

theorem atobChars_pad2 (c1 c2 : Char) (rest : List Char) :
    atobChars (c1 :: c2 :: '=' :: '=' :: rest)
      = [b64Index c1 * 4 + b64Index c2 / 16] := by
  simp only [atobChars]
  rw [if_true]

theorem atobChars_pad1 (c1 c2 c3 : Char) (rest : List Char) (h3 : c3 ≠ '=') :
    atobChars (c1 :: c2 :: c3 :: '=' :: rest)
      = [b64Index c1 * 4 + b64Index c2 / 16,
         b64Index c2 % 16 * 16 + b64Index c3 / 4] := by
  simp only [atobChars]
  rw [if_neg h3, if_true]

theorem decode_encode_aux :
    ∀ l : List ℕ, (∀ b ∈ l, b < 256) → atobChars (btoaBytes l) = l
  | [], _ => rfl
  | [b1], h => by
    have hb1 : b1 < 256 := h b1 (by simp)
    show atobChars (b64Char (b1 / 4) :: b64Char (b1 % 4 * 16) :: '=' :: '=' :: []) = [b1]
    rw [atobChars_pad2,
      (b64_roundtrip (b1 / 4) (by omega)).1,
      (b64_roundtrip (b1 % 4 * 16) (by omega)).1]
    simp only [List.cons.injEq, and_true]
    omega
  | [b1, b2], h => by
    have hb1 : b1 < 256 := h b1 (by simp)
    have hb2 : b2 < 256 := h b2 (by simp)
    show atobChars (b64Char (b1 / 4) :: b64Char (b1 % 4 * 16 + b2 / 16) ::
        b64Char (b2 % 16 * 4) :: '=' :: []) = [b1, b2]
    rw [atobChars_pad1 _ _ _ _ ((b64_roundtrip (b2 % 16 * 4) (by omega)).2),
      (b64_roundtrip (b1 / 4) (by omega)).1,
      (b64_roundtrip (b1 % 4 * 16 + b2 / 16) (by omega)).1,
      (b64_roundtrip (b2 % 16 * 4) (by omega)).1]
    simp only [List.cons.injEq, and_true]
    constructor
    · omega
    · omega
  | b1 :: b2 :: b3 :: rest3, h => by
    have ih : atobChars (btoaBytes rest3) = rest3 :=
      decode_encode_aux rest3 (fun b hb => h b (by simp; tauto))
    have hb1 : b1 < 256 := h b1 (by simp)
    have hb2 : b2 < 256 := h b2 (by simp)
    have hb3 : b3 < 256 := h b3 (by simp)
    show atobChars (b64Char (b1 / 4) :: b64Char (b1 % 4 * 16 + b2 / 16) ::
        b64Char (b2 % 16 * 4 + b3 / 64) :: b64Char (b3 % 64) ::
          btoaBytes rest3) = b1 :: b2 :: b3 :: rest3
    rw [atobChars_full _ _ _ _ _
        ((b64_roundtrip (b2 % 16 * 4 + b3 / 64) (by omega)).2)
        ((b64_roundtrip (b3 % 64) (by omega)).2),
      (b64_roundtrip (b1 / 4) (by omega)).1,
      (b64_roundtrip (b1 % 4 * 16 + b2 / 16) (by omega)).1,
      (b64_roundtrip (b2 % 16 * 4 + b3 / 64) (by omega)).1,
      (b64_roundtrip (b3 % 64) (by omega)).1,
      ih]
    simp only [List.cons.injEq, and_true]
    refine ⟨by omega, by omega, by omega⟩

/-- C9: the base64 `encode` helper followed by the `decode` helper is the
identity on byte lists, so audio payload bytes survive the wire round-trip
unchanged. -/
theorem decode_encode_roundtrip (l : List ℕ) (h : ∀ b ∈ l, b < 256) :
    decode (encode l) = l :=
  decode_encode_aux l h

/-- Witness for C9 on a concrete five-byte payload (exercising a padded
final group). -/
theorem decode_encode_roundtrip_witness :
    decode (encode [0, 1, 127, 128, 255]) = [0, 1, 127, 128, 255] :=
  decode_encode_roundtrip [0, 1, 127, 128, 255] (by decide)

/-- Witness for C10's amended theorem: a closed entry survives a message
that carries a new fragment and a turn-complete. -/
theorem final_entries_immutable_witness :
    (onmessage ⟨some "x", none, none, true, false⟩ 0
        ⟨SessionStatus.Listening, [⟨Speaker.User, "done", true⟩], 0,
          []⟩).transcript[0]?
      = some ⟨Speaker.User, "done", true⟩ :=
  final_entries_immutable ⟨some "x", none, none, true, false⟩ 0
    ⟨SessionStatus.Listening, [⟨Speaker.User, "done", true⟩], 0, []⟩ 0
    ⟨Speaker.User, "done", true⟩ rfl rfl

/-- Truncation toward zero: the `ToIntegerOrInfinity` step JavaScript applies
when a number is stored into an `Int16Array` element. -/
def jsTrunc (x : ℚ) : ℤ := if 0 ≤ x then ⌊x⌋ else ⌈x⌉

/-- Wrap of the truncated value into the signed 16-bit range: the `ToInt16`
modulo step of an `Int16Array` store. -/
def toInt16Wrap (n : ℤ) : ℤ := (n + 32768) % 65536 - 32768

/-- One sample conversion of `createBlob` (src/unnamed/part_001 lines 52-63):
the statement `int16[i] = data[i] * 32768` stores the Float32 sample times
32768 into an `Int16Array` element. -/
def int16OfSample (x : ℚ) : ℤ := toInt16Wrap (jsTrunc (x * 32768))

/-- Little-endian byte pair of one stored 16-bit sample, as exposed by
`new Uint8Array(int16.buffer)`. -/
def uint16LEBytes (v : ℤ) : List ℕ :=
  [((v % 65536).toNat) % 256, ((v % 65536).toNat) / 256]

/-- Shape of the `GenAIBlob` the capture pipeline sends: base64 payload plus
mime type. -/
structure GenAIBlob where
  data : List Char
  mimeType : String
deriving Repr

/-- The `createBlob` helper (src/unnamed/part_001 lines 52-63, identical copy
in src/unnamed/part_002 lines 61-72): convert every Float32 sample to 16-bit
PCM, reinterpret the `Int16Array` buffer as bytes, base64 `encode` them, and
attach the fixed mime type string. -/
def createBlob (data : List ℚ) : GenAIBlob :=
  { data := encode ((data.map int16OfSample).flatMap uint16LEBytes)
    mimeType := "audio/pcm;rate=16000" }

/-- The `onaudioprocess` handler (src/hooks/useGeminiLive.ts lines 114-122):
on every script-processor callback it builds `createBlob` of the frame and
sends it via `sendRealtimeInput` whenever the session promise ref is
non-null; `none` models the frame not being sent. -/
def onaudioprocess (sessionExists : Bool) (frame : List ℚ) : Option GenAIBlob :=
  if sessionExists then some (createBlob frame) else none

/-- C8: a Float32 sample `x` in `[-1, 1)` is stored as exactly the 16-bit
integer obtained by truncating `x * 32768` — no wrap-around occurs and the
value fits the signed 16-bit range; every frame's blob carries the mime type
'audio/pcm;rate=16000' and the base64 encoding of the little-endian 16-bit
PCM bytes; and a frame is handed to the session on every audio-process
callback exactly while the session exists. -/
theorem mic_frame_encoding (x : ℚ) (h1 : -1 ≤ x) (h2 : x < 1) :
    int16OfSample x = jsTrunc (x * 32768) ∧
    -32768 ≤ int16OfSample x ∧ int16OfSample x < 32768 ∧
    (∀ frame : List ℚ, (createBlob frame).mimeType = "audio/pcm;rate=16000") ∧
    (∀ frame : List ℚ, (createBlob frame).data
        = encode ((frame.map int16OfSample).flatMap uint16LEBytes)) ∧
    (∀ frame : List ℚ, onaudioprocess true frame = some (createBlob frame) ∧
        onaudioprocess false frame = none) := by
  have hy1 : (-32768 : ℚ) ≤ x * 32768 := by nlinarith
  have hy2 : x * 32768 < 32768 := by nlinarith
  have hb : -32768 ≤ jsTrunc (x * 32768) ∧ jsTrunc (x * 32768) < 32768 := by
    unfold jsTrunc
    by_cases h : 0 ≤ x * 32768
    · rw [if_pos h]
      have hlo : (0:ℤ) ≤ ⌊x * 32768⌋ := Int.le_floor.mpr (by exact_mod_cast h)
      have hhi : ⌊x * 32768⌋ < 32768 := Int.floor_lt.mpr (by exact_mod_cast hy2)
      omega
    · rw [if_neg h]
      have hlo : (-32768:ℤ) ≤ ⌈x * 32768⌉ := by
        have hc : ((-32768 : ℤ) : ℚ) ≤ (⌈x * 32768⌉ : ℚ) :=
          le_trans (by exact_mod_cast hy1) (Int.le_ceil _)
        exact_mod_cast hc
      have hhi : ⌈x * 32768⌉ ≤ 0 := Int.ceil_le.mpr (by push_cast; linarith)
      omega
  refine ⟨?_, ?_, ?_, fun frame => rfl, fun frame => rfl,
    fun frame => ⟨rfl, rfl⟩⟩
  · unfold int16OfSample toInt16Wrap
    omega
  · unfold int16OfSample toInt16Wrap
    omega
  · unfold int16OfSample toInt16Wrap
    omega

/-- Witness for C8 at the concrete sample 1/2 (stored as 16384). -/
theorem mic_frame_encoding_witness :
    int16OfSample (1/2) = jsTrunc ((1/2 : ℚ) * 32768) ∧
    -32768 ≤ int16OfSample (1/2) ∧ int16OfSample (1/2) < 32768 :=
  ⟨(mic_frame_encoding (1/2) (by norm_num) (by norm_num)).1,
   (mic_frame_encoding (1/2) (by norm_num) (by norm_num)).2.1,
   (mic_frame_encoding (1/2) (by norm_num) (by norm_num)).2.2.1⟩

end VoiceChat
